import Mathlib

/-!
# Verification of the TUIdoist application-state core

Shallow embedding of `src/state.rs` (the `AppState` struct and its
operations) from the TUIdoist terminal task client, together with proofs
about the embedded operations.

Modelling conventions:
* Rust `Vec<T>` becomes `List T`; in-place mutation becomes functional
  state update.
* `std::time::Instant` becomes a `Nat` counting nanoseconds from an
  arbitrary origin; `Instant::now()` becomes an explicit `now : Nat`
  argument to the operations that read the clock.
  `Instant::duration_since` saturates at zero, matching `Nat`
  subtraction.
* The chrono date parsers used by the due-date filters are external
  library collaborators.  The bare-date parser
  (`NaiveDate::parse_from_str` with format `%Y-%m-%d`) is modelled
  concretely below; the RFC 3339 timestamp parser composed with the
  conversion to the viewer's local calendar date is kept as an explicit
  function argument `rfc : String → Option NaiveDate`, constrained only
  by facts true of every RFC 3339 timestamp (it contains a `T`
  separator and is longer than 10 bytes).  Likewise the viewer's local
  calendar day `Local::today()` is an explicit `today : NaiveDate`
  argument.
-/

namespace Tuidoist

/-- Calendar date as produced by chrono's `NaiveDate` (proleptic
Gregorian year/month/day). -/
structure NaiveDate where
  year : Nat
  month : Nat
  day : Nat
deriving DecidableEq, Repr

/-- chrono's strict order on calendar dates: lexicographic on
(year, month, day).  `a.blt b` models the Rust comparison `a < b`. -/
def NaiveDate.blt (a b : NaiveDate) : Bool :=
  a.year < b.year ||
    (a.year == b.year &&
      (a.month < b.month || (a.month == b.month && a.day < b.day)))

/-- `src/api.rs`: the `Due` struct attached to a task. -/
structure Due where
  date : String
  is_recurring : Bool
  datetime : Option String
  string : String
  timezone : Option String
deriving DecidableEq, Repr

/-- `src/api.rs`: the `Task` struct received from the remote service. -/
structure Task where
  id : String
  content : String
  description : String
  is_completed : Bool
  due : Option Due
  priority : Nat
deriving DecidableEq, Repr

/-- `src/state.rs`: the `ChangeType` enum. -/
inductive ChangeType where
  | Complete
  | Uncomplete
deriving DecidableEq, Repr

/-- `src/state.rs`: the `PendingChange` struct.  `timestamp` models the
`Instant` at which the change was created, in nanoseconds. -/
structure PendingChange where
  task_id : String
  change_type : ChangeType
  timestamp : Nat
deriving DecidableEq, Repr

/-- `src/state.rs`: the `SyncStatus` enum. -/
inductive SyncStatus where
  | Online
  | Offline
  | Syncing
  | Error (msg : String)
deriving DecidableEq, Repr

/-- `src/state.rs`: the `AppState` struct. -/
structure AppState where
  tasks : List Task
  completed_tasks : List Task
  selected_index : Nat
  pending_changes : List PendingChange
  search_query : String
  is_searching : Bool
  sync_status : SyncStatus
deriving DecidableEq, Repr

/-- `Duration::from_secs(30)` in nanoseconds: the sync debounce
threshold. -/
def sync_threshold : Nat := 30 * 1000000000

namespace AppState

/-- `AppState::new`: empty collections, cursor 0, `Offline` status. -/
def new : AppState :=
  { tasks := []
    completed_tasks := []
    selected_index := 0
    pending_changes := []
    search_query := ""
    is_searching := false
    sync_status := SyncStatus.Offline }

/-- `AppState::load_tasks`: replaces `tasks` wholesale and resets the
cursor to 0. -/
def load_tasks (tasks : List Task) (s : AppState) : AppState :=
  { s with tasks := tasks, selected_index := 0 }

/-- `AppState::load_completed_tasks`: replaces `completed_tasks`
wholesale, forcing each entry's `is_completed` flag to `true`. -/
def load_completed_tasks (tasks : List Task) (s : AppState) : AppState :=
  { s with
    completed_tasks := tasks.map (fun t => { t with is_completed := true }) }

/-- `AppState::move_up`: decrement the cursor, floored at 0. -/
def move_up (s : AppState) : AppState :=
  if 0 < s.selected_index then
    { s with selected_index := s.selected_index - 1 }
  else s

/-- `AppState::move_down`: increment the cursor while it is below
`tasks.len().saturating_sub(1)`. -/
def move_down (s : AppState) : AppState :=
  if s.selected_index < s.tasks.length - 1 then
    { s with selected_index := s.selected_index + 1 }
  else s

/-- `AppState::go_to_top`. -/
def go_to_top (s : AppState) : AppState :=
  { s with selected_index := 0 }

/-- `AppState::go_to_bottom`: jump to `tasks.len().saturating_sub(1)`. -/
def go_to_bottom (s : AppState) : AppState :=
  { s with selected_index := s.tasks.length - 1 }

/-- `AppState::toggle_selected_task`: if `selected_index` indexes into
`tasks`, flip that task's `is_completed` flag in place and push a
`PendingChange` recording the post-toggle state, stamped with the
current instant `now`. -/
def toggle_selected_task (now : Nat) (s : AppState) : AppState :=
  match s.tasks[s.selected_index]? with
  | none => s
  | some task =>
    let task' : Task := { task with is_completed := !task.is_completed }
    let change_type : ChangeType :=
      if task'.is_completed then ChangeType.Complete else ChangeType.Uncomplete
    { s with
      tasks := s.tasks.set s.selected_index task'
      pending_changes :=
        s.pending_changes ++
          [{ task_id := task.id, change_type := change_type, timestamp := now }] }

/-- `AppState::get_ready_to_sync`: the pending changes whose age
(`now.duration_since(timestamp)`) has reached the 30-second
threshold. -/
def get_ready_to_sync (now : Nat) (s : AppState) : List PendingChange :=
  s.pending_changes.filter (fun change => sync_threshold ≤ now - change.timestamp)

/-- `AppState::mark_synced`: retain only the pending changes whose
`task_id` is not in `task_ids`. -/
def mark_synced (task_ids : List String) (s : AppState) : AppState :=
  { s with
    pending_changes :=
      s.pending_changes.filter (fun change => !task_ids.contains change.task_id) }

/-- `AppState::start_search`. -/
def start_search (s : AppState) : AppState :=
  { s with is_searching := true, search_query := "" }

/-- `AppState::end_search`. -/
def end_search (s : AppState) : AppState :=
  { s with is_searching := false, search_query := "" }

/-- `AppState::update_search`. -/
def update_search (query : String) (s : AppState) : AppState :=
  { s with search_query := query }

end AppState

/-- Value of an ASCII digit character, `none` otherwise. -/
def digitVal (c : Char) : Option Nat :=
  if '0' ≤ c && c ≤ '9' then some (c.toNat - 48) else none

/-- Number of days in a month of the proleptic Gregorian calendar,
with chrono's leap-year rule. -/
def daysInMonth (year month : Nat) : Nat :=
  if month == 2 then
    if year % 4 == 0 && (year % 100 != 0 || year % 400 == 0) then 29 else 28
  else if month == 4 || month == 6 || month == 9 || month == 11 then 30
  else 31

/-- Model of chrono's `NaiveDate::parse_from_str(s, "%Y-%m-%d")`,
restricted to the zero-padded 10-character form `YYYY-MM-DD` that the
surrounding `len() == 10` guard in `state.rs` admits: four digit year,
dash, two digit month, dash, two digit day, denoting a valid calendar
date. -/
def parseYmdChars : List Char → Option NaiveDate
  | [y1, y2, y3, y4, h1, m1, m2, h2, d1, d2] =>
    if h1 == '-' && h2 == '-' then
      match digitVal y1, digitVal y2, digitVal y3, digitVal y4,
            digitVal m1, digitVal m2, digitVal d1, digitVal d2 with
      | some a, some b, some c, some d, some e, some f, some g, some h =>
        let year := ((a * 10 + b) * 10 + c) * 10 + d
        let month := e * 10 + f
        let day := g * 10 + h
        if 1 ≤ month && month ≤ 12 && 1 ≤ day && day ≤ daysInMonth year month then
          some { year := year, month := month, day := day }
        else none
      | _, _, _, _, _, _, _, _ => none
    else none
  | _ => none

/-- String wrapper for the bare-date parser model. -/
def parse_from_str_ymd (s : String) : Option NaiveDate :=
  parseYmdChars s.data

namespace AppState

/-- The filter predicate of `AppState::tasks_due_today`: the task has a
due date whose `date` string, when it is 10 bytes long, parses as a bare
`YYYY-MM-DD` date equal to `today`, or otherwise, when it contains a
`T` separator, parses as an RFC 3339 timestamp whose local calendar
date (`rfc due.date`) equals `today`. -/
def due_today_pred (rfc : String → Option NaiveDate) (today : NaiveDate)
    (task : Task) : Bool :=
  match task.due with
  | some due =>
    if due.date.length == 10 then
      match parse_from_str_ymd due.date with
      | some d => d == today
      | none => false
    else if due.date.contains 'T' then
      match rfc due.date with
      | some dt => dt == today
      | none => false
    else false
  | none => false

/-- `AppState::tasks_due_today`. -/
def tasks_due_today (rfc : String → Option NaiveDate) (today : NaiveDate)
    (s : AppState) : List Task :=
  s.tasks.filter (due_today_pred rfc today)

/-- The filter predicate of `AppState::tasks_upcoming`: tasks with no
due date are upcoming; tasks whose due date parses (by either format)
to a date strictly after `today` are upcoming; unparseable dates are
excluded. -/
def upcoming_pred (rfc : String → Option NaiveDate) (today : NaiveDate)
    (task : Task) : Bool :=
  match task.due with
  | some due =>
    if due.date.length == 10 then
      match parse_from_str_ymd due.date with
      | some d => today.blt d
      | none => false
    else if due.date.contains 'T' then
      match rfc due.date with
      | some dt => today.blt dt
      | none => false
    else false
  | none => true

/-- `AppState::tasks_upcoming`. -/
def tasks_upcoming (rfc : String → Option NaiveDate) (today : NaiveDate)
    (s : AppState) : List Task :=
  s.tasks.filter (upcoming_pred rfc today)

end AppState

/-- Stable insertion into a list sorted by the `is_completed` key:
`t` is placed before the first element whose key is not below `t`'s
key.  Used to model Rust's stable `Vec::sort_by_key`. -/
def insertByCompleted (t : Task) : List Task → List Task
  | [] => [t]
  | u :: us =>
    if !t.is_completed || u.is_completed then t :: u :: us
    else u :: insertByCompleted t us

/-- Model of `Vec::sort_by_key(|task| task.is_completed)`: a stable
insertion sort on the Boolean key `is_completed` (with `false < true`).
Rust's `sort_by_key` is guaranteed stable, and on a two-valued key any
stable sort produces the same sequence, so this models it exactly. -/
def sortByCompleted (l : List Task) : List Task :=
  l.foldr insertByCompleted []

namespace AppState

/-- `AppState::today_tasks`: `tasks_due_today()` extended with all of
`completed_tasks`, then stable-sorted by the `is_completed` key. -/
def today_tasks (rfc : String → Option NaiveDate) (today : NaiveDate)
    (s : AppState) : List Task :=
  sortByCompleted (s.tasks_due_today rfc today ++ s.completed_tasks)

/-- Length of the unified today view (the navigation domain the spec
calls `unified_today_count()`). -/
def unified_today_count (rfc : String → Option NaiveDate) (today : NaiveDate)
    (s : AppState) : Nat :=
  (s.today_tasks rfc today).length

end AppState

/-- Flip the `is_completed` flag of the first task in the list whose id
equals `id`, leaving everything else in place. -/
def toggleFirst (id : String) : List Task → List Task
  | [] => []
  | t :: ts =>
    if t.id == id then { t with is_completed := !t.is_completed } :: ts
    else t :: toggleFirst id ts

namespace AppState

/-- Modelled from the spec: `toggle_task_by_id` is invoked from the
interaction loop (`src/ui.rs`) but its definition is absent from the
sources under `src/`.  Spec §4.1: "locates `id` first in `tasks`, else
in `completed_tasks`; flips `is_completed` in place.  No-op (silent) if
the id is not found in either collection." -/
def toggle_task_by_id (id : String) (s : AppState) : AppState :=
  if s.tasks.any (fun t => t.id == id) then
    { s with tasks := toggleFirst id s.tasks }
  else if s.completed_tasks.any (fun t => t.id == id) then
    { s with completed_tasks := toggleFirst id s.completed_tasks }
  else s

end AppState

/-- The public operations of `AppState` that mutate state, as listed in
spec §4.1.  Operations that read the clock carry the instant at which
they run. -/
inductive Op where
  | load_tasks (ts : List Task)
  | load_completed_tasks (ts : List Task)
  | move_up
  | move_down
  | go_to_top
  | go_to_bottom
  | toggle_selected_task (now : Nat)
  | mark_synced (ids : List String)
  | start_search
  | end_search
  | update_search (q : String)

/-- Apply one public operation to the state. -/
def applyOp (op : Op) (s : AppState) : AppState :=
  match op with
  | .load_tasks ts => s.load_tasks ts
  | .load_completed_tasks ts => s.load_completed_tasks ts
  | .move_up => s.move_up
  | .move_down => s.move_down
  | .go_to_top => s.go_to_top
  | .go_to_bottom => s.go_to_bottom
  | .toggle_selected_task now => s.toggle_selected_task now
  | .mark_synced ids => s.mark_synced ids
  | .start_search => s.start_search
  | .end_search => s.end_search
  | .update_search q => s.update_search q

/-- Run a sequence of public operations from a starting state. -/
def run (ops : List Op) (s : AppState) : AppState :=
  ops.foldl (fun s op => applyOp op s) s

/-! ### Concrete sample data for witnesses and counterexamples -/

/-- A task with no due date. -/
def noDueTask (i : String) : Task :=
  { id := i, content := "", description := "", is_completed := false
    due := none, priority := 1 }

/-- A task whose due-date string is unparseable. -/
def notADateTask : Task :=
  { id := "nd", content := "", description := "", is_completed := false
    due := some { date := "not-a-date", is_recurring := false, datetime := none
                  string := "", timezone := none }
    priority := 1 }

/-- State holding one incomplete task, cursor on it. -/
def oneTaskState : AppState := { AppState.new with tasks := [noDueTask "t1"] }

/-- State holding two tasks with no due date (so the unified today view
is empty while `tasks` is not). -/
def twoNoDueState : AppState :=
  { AppState.new with tasks := [noDueTask "a", noDueTask "b"] }

/-- State holding three tasks, cursor on the last. -/
def threeTaskState : AppState :=
  { AppState.new with
    tasks := [noDueTask "a", noDueTask "b", noDueTask "c"]
    selected_index := 2 }

/-- State holding only the unparseable-due-date task. -/
def notADateState : AppState := { AppState.new with tasks := [notADateTask] }

/-! ### Theorems -/

/-- C6: `load_tasks(ts)` makes `tasks` exactly `ts`, resets
`selected_index` to 0, and leaves `pending_changes`, `completed_tasks`,
the search state and `sync_status` unchanged. -/
theorem load_tasks_spec (s : AppState) (ts : List Task) :
    (s.load_tasks ts).tasks = ts ∧
    (s.load_tasks ts).selected_index = 0 ∧
    (s.load_tasks ts).pending_changes = s.pending_changes ∧
    (s.load_tasks ts).completed_tasks = s.completed_tasks ∧
    (s.load_tasks ts).search_query = s.search_query ∧
    (s.load_tasks ts).is_searching = s.is_searching ∧
    (s.load_tasks ts).sync_status = s.sync_status :=
  ⟨rfl, rfl, rfl, rfl, rfl, rfl, rfl⟩

/-- C8: after `load_completed_tasks(ts)`, `completed_tasks` is exactly
`ts` with every entry's `is_completed` flag forced to `true` (and
nothing else changes). -/
theorem load_completed_tasks_spec (s : AppState) (ts : List Task) :
    (s.load_completed_tasks ts).completed_tasks
        = ts.map (fun t => { t with is_completed := true }) ∧
    ((s.load_completed_tasks ts).completed_tasks.all
        (fun t => t.is_completed)) = true ∧
    (s.load_completed_tasks ts).tasks = s.tasks ∧
    (s.load_completed_tasks ts).selected_index = s.selected_index ∧
    (s.load_completed_tasks ts).pending_changes = s.pending_changes ∧
    (s.load_completed_tasks ts).search_query = s.search_query ∧
    (s.load_completed_tasks ts).is_searching = s.is_searching ∧
    (s.load_completed_tasks ts).sync_status = s.sync_status := by
  refine ⟨rfl, ?_, rfl, rfl, rfl, rfl, rfl, rfl⟩
  simp [AppState.load_completed_tasks, List.all_eq_true]

/-- C9: `get_ready_to_sync` returns a pending change iff its age
`now - created_at` is at least the 30-second threshold; the comparison
is `≥`, so the boundary at exactly 30 seconds is inclusive. -/
theorem get_ready_to_sync_spec (now : Nat) (s : AppState) (c : PendingChange) :
    c ∈ s.get_ready_to_sync now ↔
      c ∈ s.pending_changes ∧ sync_threshold ≤ now - c.timestamp := by
  simp [AppState.get_ready_to_sync]

/-- Witness for C9: a change aged exactly 30 seconds is returned. -/
theorem get_ready_to_sync_spec_witness :
    ({ task_id := "x", change_type := ChangeType.Complete, timestamp := 5 }
        : PendingChange) ∈
      ({ AppState.new with
          pending_changes :=
            [{ task_id := "x", change_type := ChangeType.Complete
               timestamp := 5 }] } : AppState).get_ready_to_sync
        (5 + sync_threshold) :=
  (get_ready_to_sync_spec (5 + sync_threshold) _ _).mpr
    ⟨by simp, by simp⟩

/-- C10: when `selected_index` is out of bounds for `tasks`,
`toggle_selected_task` is a total no-op. -/
theorem toggle_selected_task_oob (now : Nat) (s : AppState)
    (h : s.tasks.length ≤ s.selected_index) :
    s.toggle_selected_task now = s := by
  unfold AppState.toggle_selected_task
  rw [List.getElem?_eq_none h]

/-- Witness for C10: toggling with the cursor past the end of a
one-task list changes nothing. -/
theorem toggle_selected_task_oob_witness :
    ({ oneTaskState with selected_index := 3 } : AppState).toggle_selected_task 9
      = { oneTaskState with selected_index := 3 } :=
  toggle_selected_task_oob 9 _ (by decide)

/-- C7: with a valid `selected_index` into `tasks`,
`toggle_selected_task` flips that task's `is_completed` flag and
appends exactly one `PendingChange` carrying that task's id, stamped
`now`, whose `change_type` is `Complete` iff the post-toggle state is
completed. -/
theorem toggle_selected_task_valid (now : Nat) (s : AppState)
    (h : s.selected_index < s.tasks.length) :
    (s.toggle_selected_task now).tasks
        = s.tasks.set s.selected_index
            { s.tasks.get ⟨s.selected_index, h⟩ with
              is_completed := !(s.tasks.get ⟨s.selected_index, h⟩).is_completed } ∧
    (s.toggle_selected_task now).pending_changes
        = s.pending_changes ++
            [{ task_id := (s.tasks.get ⟨s.selected_index, h⟩).id
               change_type :=
                 if !(s.tasks.get ⟨s.selected_index, h⟩).is_completed then
                   ChangeType.Complete
                 else ChangeType.Uncomplete
               timestamp := now }] ∧
    (s.toggle_selected_task now).pending_changes.length
        = s.pending_changes.length + 1 ∧
    (s.toggle_selected_task now).completed_tasks = s.completed_tasks ∧
    (s.toggle_selected_task now).selected_index = s.selected_index ∧
    (s.toggle_selected_task now).search_query = s.search_query ∧
    (s.toggle_selected_task now).is_searching = s.is_searching ∧
    (s.toggle_selected_task now).sync_status = s.sync_status := by
  have hget : s.tasks[s.selected_index]? = some (s.tasks.get ⟨s.selected_index, h⟩) :=
    List.getElem?_eq_getElem h
  unfold AppState.toggle_selected_task
  rw [hget]
  refine ⟨rfl, ?_, by simp, rfl, rfl, rfl, rfl, rfl⟩
  simp only [List.get_eq_getElem]

/-- Witness for C7: toggling the single incomplete task of
`oneTaskState` at instant 7 appends one `Complete` change for it. -/
theorem toggle_selected_task_valid_witness :
    (oneTaskState.toggle_selected_task 7).pending_changes
      = [{ task_id := "t1", change_type := ChangeType.Complete, timestamp := 7 }] := by
  have h := (toggle_selected_task_valid 7 oneTaskState (by decide)).2.1
  rw [h]
  decide

/-- C2 counterexample: in a state whose two tasks have no due date the
unified today view is empty, so the claim requires `move_down` to be a
no-op; the code instead bounds the cursor by `tasks.len()` and moves it
from 0 to 1. -/
theorem move_down_unified_cex :
    twoNoDueState.unified_today_count (fun _ => none) ⟨2024, 1, 1⟩ = 0 ∧
    twoNoDueState.selected_index = 0 ∧
    twoNoDueState.move_down.selected_index = 1 := by
  decide

/-- C2 (amended): `move_down` increments `selected_index` by one unless
`selected_index + 1` has reached `tasks.len()` — the flat active-task
list, not the unified today view — where it stays; it is a no-op on an
empty `tasks` list; repeated `move_down` on a 3-item `tasks` list stops
at index 2 and never wraps; no other field changes. -/
theorem move_down_spec (s : AppState) :
    (s.tasks = [] → s.move_down = s) ∧
    (s.selected_index + 1 < s.tasks.length →
        s.move_down.selected_index = s.selected_index + 1) ∧
    (s.tasks.length ≤ s.selected_index + 1 → s.move_down = s) ∧
    (s.tasks.length = 3 → s.selected_index = 2 → s.move_down = s) ∧
    s.move_down.tasks = s.tasks ∧
    s.move_down.completed_tasks = s.completed_tasks ∧
    s.move_down.pending_changes = s.pending_changes ∧
    s.move_down.search_query = s.search_query ∧
    s.move_down.is_searching = s.is_searching ∧
    s.move_down.sync_status = s.sync_status := by
  refine ⟨?_, ?_, ?_, ?_, ?_, ?_, ?_, ?_, ?_, ?_⟩
  · intro h
    have hc : ¬ s.selected_index < s.tasks.length - 1 := by simp [h]
    simp [AppState.move_down, hc]
  · intro h
    have hc : s.selected_index < s.tasks.length - 1 := by omega
    simp [AppState.move_down, hc]
  · intro h
    have hc : ¬ s.selected_index < s.tasks.length - 1 := by omega
    simp [AppState.move_down, hc]
  · intro h1 h2
    have hc : ¬ s.selected_index < s.tasks.length - 1 := by omega
    simp [AppState.move_down, hc]
  all_goals unfold AppState.move_down
  all_goals split <;> rfl

/-- Witness for C2: on the three-task state with the cursor on the last
index, `move_down` stays put. -/
theorem move_down_spec_witness :
    threeTaskState.move_down = threeTaskState :=
  (move_down_spec threeTaskState).2.2.2.1 (by decide) (by decide)

/-- C1 counterexample: the state reached from the initial state by
`load_tasks` of two no-due-date tasks followed by `move_down` has
`selected_index = 1` even though `unified_today_count()` is 0, so the
claimed invariant over the unified count fails on a reachable state. -/
theorem selected_index_unified_cex :
    (run [Op.load_tasks [noDueTask "a", noDueTask "b"], Op.move_down]
        AppState.new).selected_index = 1 ∧
    AppState.unified_today_count (fun _ => none) ⟨2024, 1, 1⟩
        (run [Op.load_tasks [noDueTask "a", noDueTask "b"], Op.move_down]
          AppState.new) = 0 := by
  decide

/-- The cursor invariant the code actually maintains: `selected_index`
is a valid index into the flat `tasks` list, or 0 when `tasks` is
empty. -/
def CursorInv (s : AppState) : Prop :=
  s.selected_index < s.tasks.length ∨
    (s.selected_index = 0 ∧ s.tasks.length = 0)

/-- Every public operation preserves the cursor invariant. -/
lemma cursorInv_applyOp (op : Op) (s : AppState) (h : CursorInv s) :
    CursorInv (applyOp op s) := by
  unfold CursorInv at h ⊢
  cases op with
  | load_tasks ts =>
    cases ts with
    | nil => exact Or.inr ⟨rfl, rfl⟩
    | cons t ts => exact Or.inl (by simp [applyOp, AppState.load_tasks])
  | load_completed_tasks ts => exact h
  | move_up =>
    simp only [applyOp, AppState.move_up]
    split
    · exact show s.selected_index - 1 < s.tasks.length ∨
          (s.selected_index - 1 = 0 ∧ s.tasks.length = 0) by omega
    · exact h
  | move_down =>
    simp only [applyOp, AppState.move_down]
    split
    · exact show s.selected_index + 1 < s.tasks.length ∨
          (s.selected_index + 1 = 0 ∧ s.tasks.length = 0) by omega
    · exact h
  | go_to_top =>
    exact show 0 < s.tasks.length ∨ (0 = 0 ∧ s.tasks.length = 0) by omega
  | go_to_bottom =>
    simp only [applyOp, AppState.go_to_bottom]
    exact show s.tasks.length - 1 < s.tasks.length ∨
        (s.tasks.length - 1 = 0 ∧ s.tasks.length = 0) by omega
  | toggle_selected_task now =>
    simp only [applyOp, AppState.toggle_selected_task]
    cases hm : s.tasks[s.selected_index]? with
    | none => exact h
    | some task =>
      refine show s.selected_index < (s.tasks.set s.selected_index
          { task with is_completed := !task.is_completed }).length ∨
          (s.selected_index = 0 ∧ (s.tasks.set s.selected_index
            { task with is_completed := !task.is_completed }).length = 0) from ?_
      rw [List.length_set]
      exact h
  | mark_synced ids => exact h
  | start_search => exact h
  | end_search => exact h
  | update_search q => exact h

/-- Any run of public operations preserves the cursor invariant. -/
lemma cursorInv_run (ops : List Op) (s : AppState) (h : CursorInv s) :
    CursorInv (run ops s) := by
  induction ops generalizing s with
  | nil => exact h
  | cons op ops ih => exact ih (applyOp op s) (cursorInv_applyOp op s h)

/-- C1 (amended): in every state reachable from the initial state by
the public operations, `selected_index` lies within
`[0, tasks.len())` — the flat active-task list, not the unified today
view — or equals 0 when `tasks` is empty. -/
theorem selected_index_in_bounds (ops : List Op) :
    (run ops AppState.new).selected_index < (run ops AppState.new).tasks.length ∨
      ((run ops AppState.new).selected_index = 0 ∧
        (run ops AppState.new).tasks.length = 0) :=
  cursorInv_run ops AppState.new (Or.inr ⟨rfl, rfl⟩)

/-- Inserting an incomplete task places it at the front. -/
lemma insertByCompleted_incomplete (t : Task) (l : List Task)
    (ht : t.is_completed = false) : insertByCompleted t l = t :: l := by
  cases l with
  | nil => rfl
  | cons u us => simp [insertByCompleted, ht]

/-- Inserting a completed task into incompletes-then-completes places it
at the head of the completed block. -/
lemma insertByCompleted_complete (t : Task) (ht : t.is_completed = true) :
    ∀ a b : List Task, (∀ u ∈ a, u.is_completed = false) →
      (∀ u ∈ b, u.is_completed = true) →
      insertByCompleted t (a ++ b) = a ++ t :: b := by
  intro a
  induction a with
  | nil =>
    intro b _ hb
    cases b with
    | nil => rfl
    | cons u us =>
      have hu : u.is_completed = true := hb u (by simp)
      simp [insertByCompleted, ht, hu]
  | cons u us ih =>
    intro b ha hb
    have hu : u.is_completed = false := ha u (by simp)
    simp only [List.cons_append, insertByCompleted, ht, hu]
    simp only [Bool.not_true, Bool.false_or, Bool.false_eq_true, if_false,
      List.cons.injEq, true_and]
    exact ih b (fun v hv => ha v (by simp [hv])) hb

/-- The stable sort by the Boolean key `is_completed` is exactly the
stable partition: incomplete entries in original order, then completed
entries in original order. -/
lemma sortByCompleted_partition (l : List Task) :
    sortByCompleted l
      = l.filter (fun t => !t.is_completed) ++ l.filter (fun t => t.is_completed) := by
  induction l with
  | nil => rfl
  | cons t ts ih =>
    have hstep : sortByCompleted (t :: ts) = insertByCompleted t (sortByCompleted ts) := rfl
    rw [hstep, ih]
    cases ht : t.is_completed with
    | false =>
      rw [insertByCompleted_incomplete t _ ht]
      simp [List.filter_cons, ht]
    | true =>
      rw [insertByCompleted_complete t ht _ _
        (fun u hu => by simpa using (List.mem_filter.mp hu).2)
        (fun u hu => (List.mem_filter.mp hu).2)]
      simp [List.filter_cons, ht]

/-- C4: `today_tasks()` is the stable partition (by `is_completed`) of
`tasks_due_today() ++ completed_tasks`: it is that concatenation
stably sorted with `is_completed` as the key, a permutation of it, and
splits into an incomplete prefix followed by a completed suffix (equal
completion status keeps relative order because each block is a filter
of the concatenation in order); as a pure function of the state it is
deterministic, so two calls without an intervening mutation agree. -/
theorem today_tasks_spec (rfc : String → Option NaiveDate) (today : NaiveDate)
    (s : AppState) :
    s.today_tasks rfc today
      = (s.tasks_due_today rfc today ++ s.completed_tasks).filter
          (fun t => !t.is_completed)
        ++ (s.tasks_due_today rfc today ++ s.completed_tasks).filter
          (fun t => t.is_completed) ∧
    (s.today_tasks rfc today).Perm (s.tasks_due_today rfc today ++ s.completed_tasks) ∧
    ∃ a b, s.today_tasks rfc today = a ++ b ∧
      (∀ t ∈ a, t.is_completed = false) ∧ (∀ t ∈ b, t.is_completed = true) := by
  have hpart :=
    sortByCompleted_partition (s.tasks_due_today rfc today ++ s.completed_tasks)
  refine ⟨hpart, ?_, ?_⟩
  · have hperm := List.filter_append_perm (fun t : Task => !t.is_completed)
      (s.tasks_due_today rfc today ++ s.completed_tasks)
    simp only [Bool.not_not] at hperm
    have hToday : s.today_tasks rfc today
        = (s.tasks_due_today rfc today ++ s.completed_tasks).filter
            (fun t => !t.is_completed)
          ++ (s.tasks_due_today rfc today ++ s.completed_tasks).filter
            (fun t => t.is_completed) := hpart
    rw [hToday]
    exact hperm
  · exact ⟨_, _, hpart,
      fun t htm => by simpa using (List.mem_filter.mp htm).2,
      fun t htm => (List.mem_filter.mp htm).2⟩

/-- Witness for C4: on the concrete state holding one completed task
and one due-today task, `today_tasks` is a permutation of the
concatenation. -/
theorem today_tasks_spec_witness :
    (oneTaskState.today_tasks (fun _ => none) ⟨2024, 1, 1⟩).Perm
      (oneTaskState.tasks_due_today (fun _ => none) ⟨2024, 1, 1⟩
        ++ oneTaskState.completed_tasks) :=
  (today_tasks_spec (fun _ => none) ⟨2024, 1, 1⟩ oneTaskState).2.1

/-- A successful bare-date parse consumes exactly 10 characters. -/
lemma parseYmdChars_length : ∀ {cs : List Char} {d : NaiveDate},
    parseYmdChars cs = some d → cs.length = 10 := by
  intro cs d h
  rcases cs with _ | ⟨c1, _ | ⟨c2, _ | ⟨c3, _ | ⟨c4, _ | ⟨c5, _ | ⟨c6, _ | ⟨c7,
    _ | ⟨c8, _ | ⟨c9, _ | ⟨c10, _ | ⟨c11, rest⟩⟩⟩⟩⟩⟩⟩⟩⟩⟩⟩
  all_goals first
    | rfl
    | simp [parseYmdChars] at h

/-- A successful bare-date parse means the string is 10 characters
long. -/
lemma parse_from_str_ymd_length {s : String} {d : NaiveDate}
    (h : parse_from_str_ymd s = some d) : s.length = 10 :=
  parseYmdChars_length h

/-- The `tasks_due_today` filter accepts a task exactly when its due
date parses (bare or timestamped) to `today`, given that the RFC 3339
parser only succeeds on strings that are not 10 characters long and
contain a `T`. -/
lemma due_today_pred_iff (rfc : String → Option NaiveDate) (today : NaiveDate)
    (hrfc : ∀ str d, rfc str = some d → str.length ≠ 10 ∧ str.contains 'T' = true)
    (t : Task) :
    AppState.due_today_pred rfc today t = true ↔
      ∃ due, t.due = some due ∧
        (parse_from_str_ymd due.date = some today ∨ rfc due.date = some today) := by
  cases hdue : t.due with
  | none => simp [AppState.due_today_pred, hdue]
  | some due =>
    simp only [AppState.due_today_pred, hdue, Option.some.injEq, exists_eq_left']
    by_cases hlen : due.date.length = 10
    · cases hp : parse_from_str_ymd due.date with
      | some d =>
        simp only [hlen, hp, beq_self_eq_true, if_true, beq_iff_eq,
          Option.some.injEq]
        constructor
        · intro h
          exact Or.inl h
        · rintro (h | h)
          · exact h
          · exact absurd hlen (hrfc _ _ h).1
      | none =>
        simp only [hlen, hp, beq_self_eq_true, if_true]
        constructor
        · intro h
          exact absurd h (by simp)
        · rintro (h | h)
          · exact absurd h (by simp [hp])
          · exact absurd hlen (hrfc _ _ h).1
    · have hbeq : (due.date.length == 10) = false := by
        simpa using hlen
      by_cases hT : due.date.contains 'T' = true
      · cases hr : rfc due.date with
        | some dt =>
          simp only [hbeq, Bool.false_eq_true, if_false, hT, if_true, hr,
            beq_iff_eq, Option.some.injEq]
          constructor
          · intro h
            exact Or.inr h
          · rintro (h | h)
            · exact absurd (parse_from_str_ymd_length h) hlen
            · exact h
        | none =>
          simp only [hbeq, Bool.false_eq_true, if_false, hT, if_true, hr]
          constructor
          · intro h
            exact absurd h (by simp)
          · rintro (h | h)
            · exact absurd (parse_from_str_ymd_length h) hlen
            · exact absurd h (by simp [hr])
      · have hTf : due.date.contains 'T' = false := by
          simpa using hT
        simp only [hbeq, Bool.false_eq_true, if_false, hTf]
        constructor
        · intro h
          exact absurd h (by simp)
        · rintro (h | h)
          · exact absurd (parse_from_str_ymd_length h) hlen
          · exact absurd (hrfc _ _ h).2 (by simp [hTf])

/-- The `tasks_upcoming` filter accepts a task exactly when it has no
due date or its due date parses (bare or timestamped) to a date
strictly after `today`. -/
lemma upcoming_pred_iff (rfc : String → Option NaiveDate) (today : NaiveDate)
    (hrfc : ∀ str d, rfc str = some d → str.length ≠ 10 ∧ str.contains 'T' = true)
    (t : Task) :
    AppState.upcoming_pred rfc today t = true ↔
      t.due = none ∨ ∃ due, t.due = some due ∧
        ((∃ d, parse_from_str_ymd due.date = some d ∧ today.blt d = true) ∨
         (∃ d, rfc due.date = some d ∧ today.blt d = true)) := by
  cases hdue : t.due with
  | none => simp [AppState.upcoming_pred, hdue]
  | some due =>
    simp only [AppState.upcoming_pred, hdue, Option.some.injEq, exists_eq_left',
      reduceCtorEq, false_or]
    by_cases hlen : due.date.length = 10
    · cases hp : parse_from_str_ymd due.date with
      | some d =>
        simp only [hlen, hp, beq_self_eq_true, if_true, Option.some.injEq]
        constructor
        · intro h
          exact Or.inl ⟨d, rfl, h⟩
        · rintro (⟨d', hd', hblt⟩ | ⟨d', hd', hblt⟩)
          · cases hd'
            exact hblt
          · exact absurd hlen (hrfc _ _ hd').1
      | none =>
        simp only [hlen, hp, beq_self_eq_true, if_true]
        constructor
        · intro h
          exact absurd h (by simp)
        · rintro (⟨d', hd', hblt⟩ | ⟨d', hd', hblt⟩)
          · exact absurd hd' (by simp [hp])
          · exact absurd hlen (hrfc _ _ hd').1
    · have hbeq : (due.date.length == 10) = false := by
        simpa using hlen
      by_cases hT : due.date.contains 'T' = true
      · cases hr : rfc due.date with
        | some dt =>
          simp only [hbeq, Bool.false_eq_true, if_false, hT, if_true, hr,
            Option.some.injEq]
          constructor
          · intro h
            exact Or.inr ⟨dt, rfl, h⟩
          · rintro (⟨d', hd', hblt⟩ | ⟨d', hd', hblt⟩)
            · exact absurd (parse_from_str_ymd_length hd') hlen
            · cases hd'
              exact hblt
        | none =>
          simp only [hbeq, Bool.false_eq_true, if_false, hT, if_true, hr]
          constructor
          · intro h
            exact absurd h (by simp)
          · rintro (⟨d', hd', hblt⟩ | ⟨d', hd', hblt⟩)
            · exact absurd (parse_from_str_ymd_length hd') hlen
            · exact absurd hd' (by simp [hr])
      · have hTf : due.date.contains 'T' = false := by
          simpa using hT
        simp only [hbeq, Bool.false_eq_true, if_false, hTf]
        constructor
        · intro h
          exact absurd h (by simp)
        · rintro (⟨d', hd', hblt⟩ | ⟨d', hd', hblt⟩)
          · exact absurd (parse_from_str_ymd_length hd') hlen
          · exact absurd (hrfc _ _ hd').2 (by simp [hTf])

/-- C5: a task of `tasks` is in `tasks_due_today()` iff its `due.date`
parses as a bare `YYYY-MM-DD` date equal to the local calendar day
`today`, or as a full timestamp whose local calendar date (under the
RFC 3339 parser-to-local-date model `rfc`) equals `today`; it is in
`tasks_upcoming()` iff its due date parses to a date strictly after
`today` or it has no due date; and a task with the unparseable due
date "not-a-date" is in neither.  The hypothesis constrains `rfc` to
facts true of chrono's RFC 3339 parser: it only succeeds on strings
that contain a `T` separator and are not 10 characters long. -/
theorem date_classification_spec (rfc : String → Option NaiveDate)
    (today : NaiveDate) (s : AppState)
    (hrfc : ∀ str d, rfc str = some d → str.length ≠ 10 ∧ str.contains 'T' = true) :
    (∀ t ∈ s.tasks,
      (t ∈ s.tasks_due_today rfc today ↔
        ∃ due, t.due = some due ∧
          (parse_from_str_ymd due.date = some today ∨ rfc due.date = some today))) ∧
    (∀ t ∈ s.tasks,
      (t ∈ s.tasks_upcoming rfc today ↔
        t.due = none ∨ ∃ due, t.due = some due ∧
          ((∃ d, parse_from_str_ymd due.date = some d ∧ today.blt d = true) ∨
           (∃ d, rfc due.date = some d ∧ today.blt d = true)))) ∧
    (∀ t ∈ s.tasks, ∀ due, t.due = some due → due.date = "not-a-date" →
      t ∉ s.tasks_due_today rfc today ∧ t ∉ s.tasks_upcoming rfc today) := by
  have hnd_len : ("not-a-date" : String).length = 10 := rfl
  have hnd_parse : parse_from_str_ymd "not-a-date" = none := rfl
  refine ⟨?_, ?_, ?_⟩
  · intro t ht
    rw [AppState.tasks_due_today, List.mem_filter]
    simp only [ht, true_and]
    exact due_today_pred_iff rfc today hrfc t
  · intro t ht
    rw [AppState.tasks_upcoming, List.mem_filter]
    simp only [ht, true_and]
    exact upcoming_pred_iff rfc today hrfc t
  · intro t ht due hdue hdate
    constructor
    · intro hmem
      have hp := (due_today_pred_iff rfc today hrfc t).mp
        (List.mem_filter.mp hmem).2
      rcases hp with ⟨due', hdue', hcase⟩
      rw [hdue] at hdue'
      cases hdue'
      rcases hcase with h | h
      · rw [hdate] at h
        simp [hnd_parse] at h
      · exact (hrfc _ _ h).1 (hdate ▸ hnd_len)
    · intro hmem
      have hp := (upcoming_pred_iff rfc today hrfc t).mp
        (List.mem_filter.mp hmem).2
      rcases hp with h | ⟨due', hdue', hcase⟩
      · rw [hdue] at h
        cases h
      · rw [hdue] at hdue'
        cases hdue'
        rcases hcase with ⟨d, hd, _⟩ | ⟨d, hd, _⟩
        · rw [hdate] at hd
          simp [hnd_parse] at hd
        · exact (hrfc _ _ hd).1 (hdate ▸ hnd_len)

/-- Witness for C5: with the always-failing RFC 3339 parser model and a
concrete state whose only task has due date "not-a-date", the task is
in neither dated view. -/
theorem date_classification_spec_witness :
    notADateTask ∉ notADateState.tasks_due_today (fun _ => none) ⟨2024, 1, 1⟩ ∧
    notADateTask ∉ notADateState.tasks_upcoming (fun _ => none) ⟨2024, 1, 1⟩ :=
  (date_classification_spec (fun _ => none) ⟨2024, 1, 1⟩ notADateState
      (fun _ _ h => Option.noConfusion h)).2.2
    notADateTask (List.mem_singleton.mpr rfl)
    { date := "not-a-date", is_recurring := false, datetime := none
      string := "", timezone := none } rfl rfl

/-- `toggleFirst` at the first index whose task has the sought id is a
point update flipping that task's flag. -/
lemma toggleFirst_first_match (id : String) :
    ∀ (l : List Task) (j : Nat) (hj : j < l.length),
      (l.get ⟨j, hj⟩).id = id →
      (∀ k (hk : k < j), (l.get ⟨k, Nat.lt_trans hk hj⟩).id ≠ id) →
      toggleFirst id l = l.set j
        { l.get ⟨j, hj⟩ with is_completed := !(l.get ⟨j, hj⟩).is_completed } := by
  intro l
  induction l with
  | nil =>
    intro j hj
    exact absurd hj (by simp)
  | cons t ts ih =>
    intro j hj hid hbefore
    cases j with
    | zero =>
      have hbeq : (t.id == id) = true := by simpa using hid
      simp only [toggleFirst, hbeq, if_true]
      rfl
    | succ j' =>
      have hj' : j' < ts.length := Nat.lt_of_succ_lt_succ hj
      have hne : t.id ≠ id := hbefore 0 (Nat.succ_pos j')
      have hbeq : (t.id == id) = false := by simpa using hne
      have hrec := ih j' hj' hid (fun k hk => hbefore (k + 1) (Nat.succ_lt_succ hk))
      have h1 : toggleFirst id (t :: ts) = t :: toggleFirst id ts := by
        simp [toggleFirst, hbeq]
      rw [h1, hrec]
      rfl

/-- C3: `toggle_task_by_id(id)` (modelled from the spec, since only its
call site survives in the sources) locates the task with that id first
in `tasks` and otherwise in `completed_tasks`, flips its
`is_completed` flag in place (a point update at the first matching
index, everything else unchanged), and is a silent no-op when the id is
found in neither collection. -/
theorem toggle_task_by_id_spec (id : String) (s : AppState) :
    ((∀ t ∈ s.tasks, t.id ≠ id) → (∀ t ∈ s.completed_tasks, t.id ≠ id) →
      s.toggle_task_by_id id = s) ∧
    (∀ j (hj : j < s.tasks.length),
      (s.tasks.get ⟨j, hj⟩).id = id →
      (∀ k (hk : k < j), (s.tasks.get ⟨k, Nat.lt_trans hk hj⟩).id ≠ id) →
      (s.toggle_task_by_id id).tasks
          = s.tasks.set j
              { s.tasks.get ⟨j, hj⟩ with
                is_completed := !(s.tasks.get ⟨j, hj⟩).is_completed } ∧
      (s.toggle_task_by_id id).completed_tasks = s.completed_tasks ∧
      (s.toggle_task_by_id id).selected_index = s.selected_index ∧
      (s.toggle_task_by_id id).pending_changes = s.pending_changes ∧
      (s.toggle_task_by_id id).search_query = s.search_query ∧
      (s.toggle_task_by_id id).is_searching = s.is_searching ∧
      (s.toggle_task_by_id id).sync_status = s.sync_status) ∧
    ((∀ t ∈ s.tasks, t.id ≠ id) →
      ∀ j (hj : j < s.completed_tasks.length),
      (s.completed_tasks.get ⟨j, hj⟩).id = id →
      (∀ k (hk : k < j), (s.completed_tasks.get ⟨k, Nat.lt_trans hk hj⟩).id ≠ id) →
      (s.toggle_task_by_id id).completed_tasks
          = s.completed_tasks.set j
              { s.completed_tasks.get ⟨j, hj⟩ with
                is_completed := !(s.completed_tasks.get ⟨j, hj⟩).is_completed } ∧
      (s.toggle_task_by_id id).tasks = s.tasks ∧
      (s.toggle_task_by_id id).selected_index = s.selected_index ∧
      (s.toggle_task_by_id id).pending_changes = s.pending_changes ∧
      (s.toggle_task_by_id id).search_query = s.search_query ∧
      (s.toggle_task_by_id id).is_searching = s.is_searching ∧
      (s.toggle_task_by_id id).sync_status = s.sync_status) := by
  refine ⟨?_, ?_, ?_⟩
  · intro h1 h2
    have ha1 : ¬ (s.tasks.any (fun t => t.id == id) = true) := by
      simp only [List.any_eq_true]
      rintro ⟨t, ht, hbeq⟩
      exact h1 t ht (by simpa using hbeq)
    have ha2 : ¬ (s.completed_tasks.any (fun t => t.id == id) = true) := by
      simp only [List.any_eq_true]
      rintro ⟨t, ht, hbeq⟩
      exact h2 t ht (by simpa using hbeq)
    unfold AppState.toggle_task_by_id
    rw [if_neg ha1, if_neg ha2]
  · intro j hj hid hbefore
    have hany : s.tasks.any (fun t => t.id == id) = true := by
      simp only [List.any_eq_true]
      exact ⟨s.tasks.get ⟨j, hj⟩, List.get_mem _ _ _, by simpa using hid⟩
    unfold AppState.toggle_task_by_id
    rw [if_pos hany]
    exact ⟨toggleFirst_first_match id s.tasks j hj hid hbefore,
      rfl, rfl, rfl, rfl, rfl, rfl⟩
  · intro h1 j hj hid hbefore
    have ha1 : ¬ (s.tasks.any (fun t => t.id == id) = true) := by
      simp only [List.any_eq_true]
      rintro ⟨t, ht, hbeq⟩
      exact h1 t ht (by simpa using hbeq)
    have hany : s.completed_tasks.any (fun t => t.id == id) = true := by
      simp only [List.any_eq_true]
      exact ⟨s.completed_tasks.get ⟨j, hj⟩, List.get_mem _ _ _, by simpa using hid⟩
    unfold AppState.toggle_task_by_id
    rw [if_neg ha1, if_pos hany]
    exact ⟨toggleFirst_first_match id s.completed_tasks j hj hid hbefore,
      rfl, rfl, rfl, rfl, rfl, rfl⟩

/-- Witness for C3: an id found in neither collection leaves the state
untouched. -/
theorem toggle_task_by_id_spec_witness :
    oneTaskState.toggle_task_by_id "zz" = oneTaskState :=
  (toggle_task_by_id_spec "zz" oneTaskState).1 (by decide) (by decide)

end Tuidoist
